import Mathlib

/-!
Verification of super-lazy-clangd: the search executor, line heuristics,
ranker, URI codec and session engine.

A shallow embedding, in Lean 4, of the C++ sources of `super-lazy-clangd`
(a grep-backed LSP server).  Strings are modelled as `List Char` (byte
strings as `List Nat`), C `int` as `Int`, and the stateful loops of the
source as explicit structural recursion.  Each definition mirrors one
function of the source tree; the theorems at the end of the file settle
the specification claims against these definitions.
-/

namespace Slclangd

/-! Character classes (C locale, as used by the sources via `<cctype>`) -/

/-- C `isspace` in the default locale: space and `\t \n \v \f \r`. -/
def isCSpace (c : Char) : Bool :=
  c = ' ' || c = '\t' || c = '\n' || c = '\x0b' || c = '\x0c' || c = '\r'

/-- C `isalnum` in the default locale (ASCII letters and digits). -/
def isCAlnum (c : Char) : Bool :=
  ('0' ≤ c && c ≤ '9') || ('A' ≤ c && c ≤ 'Z') || ('a' ≤ c && c ≤ 'z')

/-- The `[A-Za-z0-9_]` "word character" predicate used by `wordAt` and the
scorer (`isalnum(x) || x == '_'`). -/
def isWordChar (c : Char) : Bool :=
  isCAlnum c || c = '_'

/-- C `tolower` in the default locale. -/
def toLowerC (c : Char) : Char :=
  if 'A' ≤ c && c ≤ 'Z' then Char.ofNat (c.toNat + 32) else c

/-! Embedding of `findColumn0` (grep_search.cpp, src/unnamed/part_001)

`findColumn0(haystack, needle)` returns the byte offset of the first
occurrence of the needle that is not inside a double-quoted string, `-1`
on comment-only lines and when no such occurrence exists. -/

/-- Length of the run of consecutive backslashes immediately before index
`j` of `h`; `is_escaped_quote(j)` in the source holds iff this is odd. -/
def bsRunEnd (h : List Char) : Nat → Nat
  | 0 => 0
  | j + 1 => if h.getD j '\x00' = '\\' then bsRunEnd h j + 1 else 0

/-- The `in_string` flag of `findColumn0` after scanning bytes `0..pos-1`:
each `"` preceded by an even number of consecutive backslashes toggles it. -/
def inStringAt (h : List Char) : Nat → Bool
  | 0 => false
  | j + 1 =>
    if h.getD j '\x00' = '"' ∧ ¬ bsRunEnd h j % 2 = 1 then !(inStringAt h j)
    else inStringAt h j

/-- The comment-only test of `findColumn0`: after skipping `isspace`
bytes, the next two bytes are `//`. -/
def commentLead (h : List Char) : Bool :=
  match h.dropWhile isCSpace with
  | '/' :: '/' :: _ => true
  | _ => false

/-- The search loop of `findColumn0`: the source repeatedly takes the next
occurrence of the needle (`haystack.find(needle, search_from)`) and
accepts it unless `in_string`; stepping the scan position by one over each
suffix visits exactly the same candidate occurrences in the same order.
`pos` is the index of the suffix `s` inside the full haystack `h`. -/
def findCol0Scan (h n : List Char) : List Char → Nat → Int
  | [], _ => -1
  | s@(_ :: t), pos =>
    if n.isPrefixOf s then
      if inStringAt h pos then findCol0Scan h n t (pos + 1) else (pos : Int)
    else findCol0Scan h n t (pos + 1)

/-- Embedding of `findColumn0` from grep_search.cpp. -/
def findColumn0 (h n : List Char) : Int :=
  if n = [] then 0
  else if commentLead h then -1
  else findCol0Scan h n h 0

/-! Line parsing of the search executor (src/unnamed/part_001) -/

/-- Embedding of `splitFirstTwoColons`: split on the first two `:` bytes into
`(path, middle, rest)`; `none` when fewer than two colons occur. -/
def splitFirstTwoColons (s : List Char) :
    Option (List Char × List Char × List Char) :=
  match s.findIdx? (· = ':') with
  | none => none
  | some p1 =>
    match (s.drop (p1 + 1)).findIdx? (· = ':') with
    | none => none
    | some d =>
      some (s.take p1, (s.drop (p1 + 1)).take d, s.drop (p1 + 1 + d + 1))

/-- Value of a digit string (most significant first). -/
def digitsVal (ds : List Char) : Int :=
  ds.foldl (fun a c => a * 10 + ((c.toNat : Int) - 48)) 0

/-- Model of `std::stoi` on the middle field, as used by `runGrep`: skip
whitespace, optional sign, then at least one digit; `none` models the
`invalid_argument`/`out_of_range` exceptions swallowed by the caller
(`catch (...) continue`).  Parsing stops at the first non-digit. -/
def stoiOpt (s : List Char) : Option Int :=
  let s1 := s.dropWhile isCSpace
  let sign : Int := match s1 with
    | '-' :: _ => -1
    | _ => 1
  let s2 := match s1 with
    | '-' :: t => t
    | '+' :: t => t
    | t => t
  let digits := s2.takeWhile (fun c => '0' ≤ c && c ≤ '9')
  if digits = [] then none
  else
    let v : Int := sign * digitsVal digits
    if v < -(2 ^ 31) ∨ 2 ^ 31 ≤ v then none else some v

/-- The trailing `\n`/`\r` strip (`while (...) line.pop_back()`). -/
def dropTrailingNlCr (s : List Char) : List Char :=
  ((s.reverse.dropWhile (fun c => c = '\n' || c = '\r'))).reverse

/-- One grep output record (`GrepMatch` of grep_search.h). -/
structure GrepMatch where
  path : List Char
  line : Int
  column : Int
  text : List Char
deriving DecidableEq

/-- One iteration of `runGrep`'s read loop on a raw line: strip trailing
newline bytes, split on the first two colons, run `stoi` on the middle
field, compute the column; `none` when the line is skipped (`continue`). -/
def parseGrepLine (raw needle : List Char) : Option GrepMatch :=
  let line := dropTrailingNlCr raw
  match splitFirstTwoColons line with
  | none => none
  | some (path, lno, text) =>
    match stoiOpt lno with
    | none => none
    | some ln =>
      let col := findColumn0 text needle
      if col < 0 then none else some ⟨path, ln, col, text⟩

/-- Observable outcome of one `runGrep` call. -/
structure GrepRun where
  out : List GrepMatch
  sigtermSent : Bool
  reaped : Bool
  consumed : Nat
deriving DecidableEq

/-- The read loop of `runGrep`.  `remaining = max_results - collected`;
the source's `if (++collected >= max_results) break` after a push is the
`remaining ≤ 1` case.  `consumed` counts the `getline` calls that
returned a line. -/
def runGrepAux (needle : List Char) : List (List Char) → Int → GrepRun
  | [], _ => ⟨[], false, false, 0⟩
  | l :: ls, remaining =>
    match parseGrepLine l needle with
    | none =>
      let r := runGrepAux needle ls remaining
      ⟨r.out, r.sigtermSent, false, r.consumed + 1⟩
    | some m =>
      if remaining ≤ 1 then ⟨[m], true, false, 1⟩
      else
        let r := runGrepAux needle ls (remaining - 1)
        ⟨m :: r.out, r.sigtermSent, false, r.consumed + 1⟩

/-- Embedding of `runGrep` from grep_search.cpp, with the child's stdout modelled as
the list of lines the parent can read from the pipe.  An empty needle or
a non-positive cap short-circuits before the fork; otherwise the loop
runs and the child is reaped by the unconditional `waitpid`. -/
def runGrep (lines : List (List Char)) (needle : List Char)
    (maxResults : Int) : GrepRun :=
  if needle = [] ∨ maxResults ≤ 0 then ⟨[], false, false, 0⟩
  else
    let r := runGrepAux needle lines maxResults
    ⟨r.out, r.sigtermSent, true, r.consumed⟩

/-- Number of lines of `lines` that produce a match (two colons, `stoi`
succeeds on the middle field, non-negative column). -/
def countAdmissible (needle : List Char) (lines : List (List Char)) : Nat :=
  (lines.filter (fun l => (parseGrepLine l needle).isSome)).length

/-- A raw line the read loop of `runGrep` rejects before computing a
column: no two colons after stripping trailing newline bytes, or `stoi`
throwing on the middle field. -/
def parserSkipsLine (raw : List Char) : Bool :=
  match splitFirstTwoColons (dropTrailingNlCr raw) with
  | none => true
  | some (_, mid, _) => (stoiOpt mid).isNone

/-! Embedding of `wordAt` (lsp_server.cpp / the server file inside uri.cpp; both
revisions contain the identical function) -/

/-- The line segmentation of `wordAt`'s outer loop: positions `i` with
`i = text.size()` or `text[i] = '\n'` delimit lines. -/
def splitLines : List Char → List (List Char)
  | [] => [[]]
  | '\n' :: t => [] :: splitLines t
  | c :: t =>
    match splitLines t with
    | l :: ls => (c :: l) :: ls
    | [] => [[c]]

/-- The back-up loop of `wordAt`:
`while (L > 0 && !is_word(line[L]) && is_word(line[L-1])) L--;`. -/
def backUp (line : List Char) : Nat → Nat
  | 0 => 0
  | k + 1 =>
    if ¬ isWordChar (line.getD (k + 1) '\x00') ∧
        isWordChar (line.getD k '\x00') then backUp line k
    else k + 1

/-- The left extension loop of `wordAt`:
`while (start > 0 && is_word(line[start-1])) start--;`. -/
def wordStart (line : List Char) : Nat → Nat
  | 0 => 0
  | s + 1 => if isWordChar (line.getD s '\x00') then wordStart line s else s + 1

/-- The body of `wordAt` on the selected line: clamp the column, back up
off the end of the line, back up over one non-word byte, then extend left
and right over `[A-Za-z0-9_]` (the right extension
`while (end < size && is_word(line[end])) end++` is the length of the
word-character run starting at `L`). -/
def wordAtLine (line : List Char) (ch0 : Nat) : List Char :=
  let c := min ch0 line.length
  let l0 := if 0 < c ∧ c = line.length then c - 1 else c
  let l := backUp line l0
  let start := wordStart line l
  let e := l + ((line.drop l).takeWhile isWordChar).length
  if e ≤ start then [] else (line.take e).drop start

/-- Embedding of `wordAt` from lsp_server.cpp: negative coordinates and a line index
past the last line yield the empty string. -/
def wordAt (text : List Char) (line0 ch0 : Int) : List Char :=
  if line0 < 0 ∨ ch0 < 0 then []
  else
    match (splitLines text).get? line0.toNat with
    | none => []
    | some line => wordAtLine line ch0.toNat

/-! The scorer (uri.cpp, server part): `scoreMatchLine` and helpers -/

/-- Index advance over `isspace` bytes (the `while (i < line.size() &&
isspace(line[i])) ++i` loops of `macroNameStartIfDefine`). -/
def skipWsIdx (line : List Char) (i : Nat) : Nat :=
  i + ((line.drop i).takeWhile isCSpace).length

/-- Embedding of `macroNameStartIfDefine` from uri.cpp: optional whitespace, `#`,
optional whitespace, `define`, at least one whitespace byte, then the
index of the macro name; `none` when the shape does not match. -/
def nameStartIfDefine (line : List Char) : Option Nat :=
  let i1 := skipWsIdx line 0
  if i1 < line.length ∧ line.getD i1 '\x00' = '#' then
    let i2 := skipWsIdx line (i1 + 1)
    if line.length < i2 + 6 then none
    else if (line.drop i2).take 6 ≠ "define".toList then none
    else
      let i3 := i2 + 6
      if i3 < line.length ∧ ¬ isCSpace (line.getD i3 '\x00') then none
      else
        let i4 := skipWsIdx line i3
        if line.length ≤ i4 then none else some i4
  else none

/-- Embedding of `isWsOrBolBefore` from uri.cpp: beginning of line, or a space or tab
immediately before the column. -/
def isWsOrBolBefore (line : List Char) (col0 : Int) : Bool :=
  if col0 ≤ 0 then true
  else
    let c := line.getD (col0.toNat - 1) '\x00'
    c = ' ' || c = '\t'

/-- The `prevNonSpace` lambda of `scoreMatchLine`: nearest byte to the
left that is not a space or tab, `'\0'` when there is none. -/
def prevNonSpace (line : List Char) : Nat → Char
  | 0 => '\x00'
  | k + 1 =>
    let c := line.getD k '\x00'
    if c ≠ ' ' ∧ c ≠ '\t' then c else prevNonSpace line k

/-- Backward skip over spaces and tabs (first and third phases of the
`prevIdentifier` lambda). -/
def skipWsBack (line : List Char) : Nat → Nat
  | 0 => 0
  | k + 1 =>
    let c := line.getD k '\x00'
    if c = ' ' || c = '\t' then skipWsBack line k else k + 1

/-- Backward skip over the punctuation set `* & : < > , (` (second phase
of the `prevIdentifier` lambda). -/
def skipPunctBack (line : List Char) : Nat → Nat
  | 0 => 0
  | k + 1 =>
    let c := line.getD k '\x00'
    if c = '*' || c = '&' || c = ':' || c = '<' || c = '>' || c = ',' ||
        c = '(' then skipPunctBack line k
    else k + 1

/-- Backward skip over identifier bytes (fourth phase of the
`prevIdentifier` lambda). -/
def skipIdentBack (line : List Char) : Nat → Nat
  | 0 => 0
  | k + 1 =>
    if isWordChar (line.getD k '\x00') then skipIdentBack line k else k + 1

/-- The `prevIdentifier` lambda of `scoreMatchLine`: walk left from
`before` skipping whitespace, then punctuation, then whitespace, and
collect the identifier there, lowercased. -/
def prevIdentifier (line : List Char) (before : Nat) : List Char :=
  let k1 := skipWsBack line before
  let k2 := skipPunctBack line k1
  let e := skipWsBack line k2
  let k := skipIdentBack line e
  if e ≤ k then [] else ((line.take e).drop k).map toLowerC

/-- The primitive/return-type token set `kPrim` of `scoreMatchLine`. -/
def kPrim : List (List Char) :=
  ["void".toList, "bool".toList, "char".toList, "short".toList,
   "int".toList, "long".toList, "float".toList, "double".toList,
   "signed".toList, "unsigned".toList,
   "wchar_t".toList, "char8_t".toList, "char16_t".toList, "char32_t".toList,
   "size_t".toList, "ssize_t".toList,
   "int8_t".toList, "uint8_t".toList, "int16_t".toList, "uint16_t".toList,
   "int32_t".toList, "uint32_t".toList, "int64_t".toList, "uint64_t".toList,
   "intptr_t".toList, "uintptr_t".toList,
   "u8".toList, "u16".toList, "u32".toList, "u64".toList,
   "s8".toList, "s16".toList, "s32".toList, "s64".toList]

/-- Embedding of `scoreMatchLine` from uri.cpp.  A negative column short-circuits to
`-100000`; otherwise the six additive bonuses of the source.  `e` is the
clamped end of the needle inside the line, and `j` the index of the next
non-space/tab byte after it. -/
def scoreMatchLine (line : List Char) (col0 : Int) (needle : List Char) :
    Int :=
  if col0 < 0 then -100000
  else
    let c : Nat := col0.toNat
    let s1 : Int :=
      match nameStartIfDefine line with
      | some ms => if (ms : Int) = col0 then 100 else 0
      | none => 0
    let s2 : Int := if isWsOrBolBefore line col0 then 25 else 0
    let s3 : Int := if prevNonSpace line c = '>' then 20 else 0
    let e : Nat := min (c + needle.length) line.length
    let s4 : Int :=
      if e < line.length ∧ line.getD e '\x00' = ';' then 40 else 0
    let j : Nat := e + ((line.drop e).takeWhile (fun x => x = ' ' || x = '\t')).length
    let paren : Bool := j < line.length && line.getD j '\x00' = '('
    let s5 : Int := if paren then 60 else 0
    let s6 : Int := if paren ∧ prevIdentifier line c ∈ kPrim then 30 else 0
    s1 + s2 + s3 + s4 + s5 + s6

/-! The ranker (uri.cpp, server part): `rankAndFilterMatches` -/

/-- A scored match (`MatchRank` of uri.cpp). -/
structure MatchRank where
  m : GrepMatch
  score : Int
  abs_path : List Char
deriving DecidableEq

/-- Lexicographic byte-string comparison (`std::string::operator<`). -/
def strLtB : List Char → List Char → Bool
  | [], [] => false
  | [], _ :: _ => true
  | _ :: _, [] => false
  | a :: as, b :: bs => a < b || (a = b && strLtB as bs)

/-- The comparator passed to `std::stable_sort`:
`(-score, abs_path asc, line asc, column asc)`. -/
def rankLt (a b : MatchRank) : Bool :=
  if a.score ≠ b.score then b.score < a.score
  else if a.abs_path ≠ b.abs_path then strLtB a.abs_path b.abs_path
  else if a.m.line ≠ b.m.line then a.m.line < b.m.line
  else a.m.column < b.m.column

/-- Stable insertion into an already sorted list: an element passes over
exactly the elements that strictly precede it under `rankLt`, so equal
elements keep their original order, as `std::stable_sort` guarantees. -/
def insertRanked (x : MatchRank) : List MatchRank → List MatchRank
  | [] => [x]
  | y :: ys => if rankLt y x then y :: insertRanked x ys else x :: y :: ys

/-- Stable sort by `rankLt` (models the `std::stable_sort` call). -/
def stableSortRanked : List MatchRank → List MatchRank
  | [] => []
  | x :: xs => insertRanked x (stableSortRanked xs)

/-- Embedding of `rankAndFilterMatches` from uri.cpp: drop matches on the cursor's own
line, score each remaining match with `scoreMatchLine` plus the `+10`
preferred-path bonus, then stable-sort. -/
def rankAndFilterMatches (ms : List GrepMatch) (needle : List Char)
    (currentAbsPath : List Char) (currentLine1 : Int)
    (preferAbsPath : List Char) (makeAbs : List Char → List Char) :
    List MatchRank :=
  let pre := ms.filterMap fun m =>
    let abs := makeAbs m.path
    if currentAbsPath ≠ [] ∧ 0 < currentLine1 ∧ abs = currentAbsPath ∧
        m.line = currentLine1 then none
    else
      some ⟨m,
        scoreMatchLine m.text m.column needle +
          (if preferAbsPath ≠ [] ∧ abs = preferAbsPath then 10 else 0),
        abs⟩
  stableSortRanked pre

/-- The ranking call of `Server::onDefinition` (uri.cpp): the handler
passes its own `current_abs` both as the current path and as
`prefer_abs_path`. -/
def definitionRank (ms : List GrepMatch) (sym : List Char)
    (currentAbs : List Char) (currentLine1 : Int)
    (makeAbs : List Char → List Char) : List MatchRank :=
  rankAndFilterMatches ms sym currentAbs currentLine1 currentAbs makeAbs

/-! Supervision trace of the search executor

grep_search.h declares `grepFixedString`/`grepFixedStringInFiles` with
`std::atomic_bool* cancelled` and `std::atomic<pid_t>* child_pid`
parameters and the server passes the in-flight entry's atomics to them,
but the revision of grep_search.cpp implementing those parameters is not
in the tree (src/unnamed/part_001 is the prior revision without them).
The supervision order is therefore modelled from the spec. -/

/-- Events of one executor run, in program order. -/
inductive ExecEvent where
  | closeWriteEnd
  | publishPid (pid : Int)
  | readLine (line : List Char)
  | sigterm (pid : Int)
  | reap (pid : Int)
deriving DecidableEq

/-- Modelled from the spec: the missing grep_search.cpp revision's
supervision order around `runGrep`'s read loop — "The parent closes the
write end, publishes the child's pid into the caller-supplied atomic slot
(so a cancelling notification can reach it), then reads the pipe
line-by-line" (§4.C Supervision); reading, cap-driven `SIGTERM` and the
final blocking reap are taken from the read loop of part_001
(`runGrepAux`). -/
def runGrepEvents (pid : Int) (lines : List (List Char))
    (needle : List Char) (cap : Int) : List ExecEvent :=
  if needle = [] ∨ cap ≤ 0 then []
  else
    let r := runGrepAux needle lines cap
    ExecEvent.closeWriteEnd :: ExecEvent.publishPid pid ::
      ((lines.take r.consumed).map ExecEvent.readLine ++
        (if r.sigtermSent then [ExecEvent.sigterm pid] else []) ++
        [ExecEvent.reap pid])

/-- Value of the `child_pid` atomic slot after a list of events (the slot
starts at the "none" sentinel `0`; only `publishPid` writes it). -/
def slotAfter (events : List ExecEvent) : Int :=
  events.foldl
    (fun s e =>
      match e with
      | ExecEvent.publishPid p => p
      | _ => s)
    0

/-- The signal decision of the `$/cancelRequest` path (lsp_server.cpp):
read the pid slot and `kill(pid, SIGTERM)` iff it is positive. -/
def killTargetOfSlot (slot : Int) : Option Int :=
  if 0 < slot then some slot else none

/-! The main loop and its two flags (lsp_server.cpp)

`Server::run` reads framed messages until EOF or until `exit_requested_`;
only a `shutdown` request sets `shutdown_received_` and only an `exit`
notification sets `exit_requested_`, so the model's state carries exactly
these two flags (the document store and the reply traffic do not feed
back into the loop condition or the exit code).  One further feature of
the code must be modelled: the document-sync notification handlers
`onDidOpen`/`onDidChange`/`onDidClose` call
`params.value("textDocument", json::object())` unguarded, and nlohmann's
`value()` throws `type_error.306` when `params` is not a JSON object.
The notification path (`handleNotification` ← `handleMessage` ← `run`)
has no `catch`, so such a notification propagates an exception out of
`run()` instead of returning to the loop.  Requests never escape:
`Server::handleRequest` wraps its whole dispatch in `try`/`catch`. -/

/-- One incoming framed message, as classified by `Server::handleMessage`:
an empty body (skipped by `run`), an unparsable or method-less body
(logged and dropped), a request (`id` present) or a notification.  A
notification also records whether its `params` value (after
`handleMessage`'s object defaulting) is a JSON object, since the
document-sync handlers throw on non-object params. -/
inductive InMsg where
  | emptyMsg
  | invalid
  | request (method : String)
  | notification (method : String) (paramsIsObject : Bool)
deriving DecidableEq

/-- Whether handling the message throws out of the main loop:
`onDidOpen` (lsp_server.cpp line 374, uri.cpp line 592), `onDidChange`
(lines 385 / 603) and `onDidClose` (lines 400 / 618) call
`params.value(...)`, which raises `type_error.306` on non-object
`params`, and no catch exists on the notification path.  All other
notification handlers either ignore `params` or guard with
`params.is_object()` (`$/cancelRequest`). -/
def msgThrows : InMsg → Bool
  | InMsg.notification m p =>
    (m = "textDocument/didOpen" || m = "textDocument/didChange" ||
      m = "textDocument/didClose") && !p
  | _ => false

/-- Is the message the `exit` notification (`Server::onExit` target)? -/
def isExitNotif : InMsg → Bool
  | InMsg.notification m _ => m = "exit"
  | _ => false

/-- The loop-relevant server flags, both initially false. -/
structure LoopFlags where
  shutdownReceived : Bool := false
  exitRequested : Bool := false
deriving DecidableEq

/-- Effect of one non-throwing message on the flags:
`Server::handleRequest` sets `shutdown_received_` exactly on method
`shutdown`, and `Server::handleNotification` → `Server::onExit` sets
`exit_requested_` exactly on method `exit`; no other handler touches
either flag. -/
def stepFlags (s : LoopFlags) : InMsg → LoopFlags
  | InMsg.emptyMsg => s
  | InMsg.invalid => s
  | InMsg.request m =>
    if m = "shutdown" then { s with shutdownReceived := true } else s
  | InMsg.notification m _ =>
    if m = "exit" then { s with exitRequested := true } else s

/-- How one `Server::run` invocation ends: with the
`return shutdown_received_ ? 0 : 1` exit status, or by an exception
escaping `run()` (the process dies with no exit status from `run`). -/
inductive RunResult where
  | exit (code : Int)
  | abort
deriving DecidableEq

/-- The loop of `Server::run` over the stream of messages (the end of the
list is EOF, i.e. `readMessage` returning `nullopt`).  A message whose
handler throws ends the run abnormally; otherwise the loop continues with
the updated flags.  Returns how the run ended together with the number of
messages actually consumed. -/
def runLoop (s : LoopFlags) : List InMsg → RunResult × Nat
  | [] => (RunResult.exit (if s.shutdownReceived then 0 else 1), 0)
  | m :: rest =>
    if s.exitRequested then
      (RunResult.exit (if s.shutdownReceived then 0 else 1), 0)
    else if msgThrows m then (RunResult.abort, 1)
    else
      let r := runLoop (stepFlags s m) rest
      (r.1, r.2 + 1)

/-- Embedding of `Server::run` from lsp_server.cpp: run the loop from the
initial flags; on normal termination the `return shutdown_received_ ? 0 :
1` applies, folded into `runLoop`'s exit leaves. -/
def serverRun (msgs : List InMsg) : RunResult × Nat :=
  runLoop {} msgs

/-- The messages the loop processes on a non-throwing stream: everything
up to and including the first `exit` notification (or the whole stream
when there is none). -/
def processedMsgs : List InMsg → List InMsg
  | [] => []
  | m :: rest =>
    if isExitNotif m then [m] else m :: processedMsgs rest

/-- Does the message list contain a `shutdown` request? -/
def containsShutdown (msgs : List InMsg) : Bool :=
  msgs.any (· = InMsg.request "shutdown")

/-! Per-request reply discipline (lsp_server.cpp, `Server::handleRequest`)

The dispatch is modelled per request: the handler's outcome is either a
result value or the message of a thrown exception, and `cancelledAfter`
is the value of the in-flight entry's `cancelled` flag that the worker
loads after the handler returns. -/

/-- A minimal JSON value universe for ids and results. -/
inductive JVal where
  | null
  | num (n : Int)
  | str (s : String)
deriving DecidableEq

/-- A JSON-RPC reply written by `replyResult` or `replyError`. -/
inductive RpcReply where
  | result (id : JVal) (r : JVal)
  | error (id : JVal) (code : Int) (msg : String)
deriving DecidableEq

/-- The id a reply carries. -/
def RpcReply.rid : RpcReply → JVal
  | RpcReply.result i _ => i
  | RpcReply.error i _ _ => i

/-- The worker lambda shared (textually repeated) by the four async
request paths: on normal return consult `cancelled` and emit `-32800` or
the result; a thrown exception becomes `-32603`. -/
def workerReplies (id : JVal) (outcome : Except String JVal)
    (cancelledAfter : Bool) : List RpcReply :=
  match outcome with
  | Except.ok v =>
    if cancelledAfter then [RpcReply.error id (-32800) "Request cancelled"]
    else [RpcReply.result id v]
  | Except.error e =>
    [RpcReply.error id (-32603) ("Internal error: " ++ e)]

/-- A synchronous handler reply under the outer `try`/`catch` of
`handleRequest`. -/
def syncReply (id : JVal) (outcome : Except String JVal) : List RpcReply :=
  match outcome with
  | Except.ok v => [RpcReply.result id v]
  | Except.error e =>
    [RpcReply.error id (-32603) ("Internal error: " ++ e)]

/-- The four methods `handleRequest` dispatches to detached workers. -/
def asyncMethods : List String :=
  ["workspace/symbol", "textDocument/hover", "textDocument/definition",
   "textDocument/references"]

/-- The replies `Server::handleRequest` causes for one request, following
the source's dispatch order.  The no-op methods reply `null` directly
(their bodies cannot throw). -/
def handleRequestReplies (method : String) (id : JVal)
    (outcome : Except String JVal) (cancelledAfter : Bool) : List RpcReply :=
  if method = "initialize" then syncReply id outcome
  else if method = "shutdown" then syncReply id outcome
  else if method = "workspace/executeCommand" then
    [RpcReply.result id JVal.null]
  else if method = "textDocument/switchSourceHeader" then
    [RpcReply.result id JVal.null]
  else if method = "workspace/symbol" then
    workerReplies id outcome cancelledAfter
  else if method = "textDocument/hover" then
    workerReplies id outcome cancelledAfter
  else if method = "textDocument/definition" then
    workerReplies id outcome cancelledAfter
  else if method = "textDocument/references" then
    workerReplies id outcome cancelledAfter
  else [RpcReply.error id (-32601) ("Method not found: " ++ method)]

/-! URI codec (uri.cpp, first part)

Paths and URIs are byte strings; bytes are modelled as `Nat` values below
256 (`unsigned char`). -/

/-- Embedding of `isUnreserved` from uri.cpp: ASCII alphanumerics and
`- . _ ~ /` (codes 45, 46, 95, 126, 47). -/
def isUnreservedByte (b : Nat) : Bool :=
  (48 ≤ b && b ≤ 57) || (65 ≤ b && b ≤ 90) || (97 ≤ b && b ≤ 122) ||
    b = 45 || b = 46 || b = 95 || b = 126 || b = 47

/-- The uppercase hex digit table `"0123456789ABCDEF"[n]`. -/
def hexDigitUpper (n : Nat) : Nat :=
  if n < 10 then 48 + n else 55 + n

/-- Embedding of `pctEncode` from uri.cpp: unreserved bytes pass through, every other
byte becomes `%` (37) and two uppercase hex digits of its nibbles. -/
def pctEncode : List Nat → List Nat
  | [] => []
  | b :: rest =>
    if isUnreservedByte b then b :: pctEncode rest
    else 37 :: hexDigitUpper ((b >>> 4) &&& 15) :: hexDigitUpper (b &&& 15) ::
      pctEncode rest

/-- Embedding of `fromHex` from uri.cpp: value of a hex digit, `-1` otherwise. -/
def fromHex (b : Nat) : Int :=
  if 48 ≤ b ∧ b ≤ 57 then (b : Int) - 48
  else if 97 ≤ b ∧ b ≤ 102 then 10 + ((b : Int) - 97)
  else if 65 ≤ b ∧ b ≤ 70 then 10 + ((b : Int) - 65)
  else -1

/-- Embedding of `pctDecode` from uri.cpp: a `%` with two following bytes that are
both hex digits decodes to `(hi << 4) | lo`; a malformed triplet copies
the `%` literally and rescans from the next byte. -/
def pctDecode : List Nat → List Nat
  | [] => []
  | b :: x :: y :: rest2 =>
    if b = 37 then
      if 0 ≤ fromHex x ∧ 0 ≤ fromHex y then
        (((fromHex x).toNat <<< 4) ||| (fromHex y).toNat) :: pctDecode rest2
      else 37 :: pctDecode (x :: y :: rest2)
    else b :: pctDecode (x :: y :: rest2)
  | b :: rest => b :: pctDecode rest

/-- The byte string `"file://"`. -/
def fileUriScheme : List Nat := [102, 105, 108, 101, 58, 47, 47]

/-- Embedding of `pathToFileUri` from uri.cpp. -/
def pathToFileUri (p : List Nat) : List Nat :=
  fileUriScheme ++ pctEncode p

/-- Embedding of `fileUriToPath` from uri.cpp: strip a leading `file://` and decode;
other strings pass through unchanged. -/
def fileUriToPath (u : List Nat) : List Nat :=
  if fileUriScheme.isPrefixOf u then pctDecode (u.drop 7) else u

end Slclangd

namespace Slclangd

/-! Theorems -/

/-! C1: one reply per request -/

/-- C1.  For every request dispatched by `Server::handleRequest`
(synchronous or asynchronous), exactly one reply carrying the request's
id is emitted; on the four asynchronous methods the worker emits error
`-32800` when the `cancelled` flag is observed true after the handler
returns, error `-32603` when the handler throws, and the handler's
result otherwise — never more than one of these. -/
theorem handleRequest_one_reply (method : String) (id : JVal)
    (outcome : Except String JVal) (cancelledAfter : Bool) :
    (handleRequestReplies method id outcome cancelledAfter).length = 1 ∧
    (∀ r ∈ handleRequestReplies method id outcome cancelledAfter,
      r.rid = id) ∧
    (method ∈ asyncMethods →
      handleRequestReplies method id outcome cancelledAfter =
        [match outcome with
         | Except.ok v =>
           if cancelledAfter then
             RpcReply.error id (-32800) "Request cancelled"
           else RpcReply.result id v
         | Except.error e =>
           RpcReply.error id (-32603) ("Internal error: " ++ e)]) := by
  refine ⟨?_, ?_, ?_⟩
  · unfold handleRequestReplies
    split_ifs <;> rcases outcome with e | v <;> cases cancelledAfter <;> rfl
  · unfold handleRequestReplies
    split_ifs <;> rcases outcome with e | v <;> cases cancelledAfter <;>
      simp [syncReply, workerReplies, RpcReply.rid]
  · intro hm
    simp only [asyncMethods, List.mem_cons, List.not_mem_nil, or_false] at hm
    have hw : workerReplies id outcome cancelledAfter =
        [match outcome with
         | Except.ok v =>
           if cancelledAfter then
             RpcReply.error id (-32800) "Request cancelled"
           else RpcReply.result id v
         | Except.error e =>
           RpcReply.error id (-32603) ("Internal error: " ++ e)] := by
      rcases outcome with e | v
      · rfl
      · cases cancelledAfter <;> rfl
    rcases hm with h | h | h | h <;> subst h <;>
      simpa [handleRequestReplies] using hw

/-- Witness for C1 at a concrete asynchronous request. -/
theorem handleRequest_one_reply_witness :
    ("textDocument/hover" ∈ asyncMethods) ∧
    handleRequestReplies "textDocument/hover" (JVal.num 7)
        (Except.ok JVal.null) true =
      [RpcReply.error (JVal.num 7) (-32800) "Request cancelled"] :=
  ⟨List.Mem.tail _ (List.Mem.head _),
    (handleRequest_one_reply "textDocument/hover" (JVal.num 7)
        (Except.ok JVal.null) true).2.2 (List.Mem.tail _ (List.Mem.head _))⟩

/-! C9: loop termination and exit code -/

/-- A message other than the `exit` notification leaves
`exit_requested_` unchanged. -/
theorem stepFlags_exitRequested (s : LoopFlags) (m : InMsg)
    (hm : isExitNotif m = false) :
    (stepFlags s m).exitRequested = s.exitRequested := by
  cases m with
  | emptyMsg => rfl
  | invalid => rfl
  | request m2 =>
    simp only [stepFlags]
    split <;> rfl
  | notification m2 p =>
    simp only [isExitNotif, decide_eq_false_iff_not] at hm
    simp [stepFlags, hm]

/-- A `shutdown` request sets `shutdown_received_`. -/
theorem stepFlags_shutdown_set (s : LoopFlags) :
    (stepFlags s (InMsg.request "shutdown")).shutdownReceived = true := by
  simp [stepFlags]

/-- Every other message leaves `shutdown_received_` unchanged. -/
theorem stepFlags_shutdown_keep (s : LoopFlags) (m : InMsg)
    (hm : m ≠ InMsg.request "shutdown") :
    (stepFlags s m).shutdownReceived = s.shutdownReceived := by
  cases m with
  | emptyMsg => rfl
  | invalid => rfl
  | request m2 =>
    by_cases h : m2 = "shutdown"
    · exact absurd (by rw [h]) hm
    · simp [stepFlags, h]
  | notification m2 p =>
    simp only [stepFlags]
    split <;> rfl

/-- Once `exit_requested_` is set, the loop consumes nothing further and
`run` returns its exit status. -/
theorem runLoop_of_exit (msgs : List InMsg) (s : LoopFlags)
    (h : s.exitRequested = true) :
    runLoop s msgs =
      (RunResult.exit (if s.shutdownReceived then 0 else 1), 0) := by
  cases msgs with
  | nil => rfl
  | cons m rest => simp [runLoop, h]

/-- On a stream without throwing notifications, the loop returns the
`shutdown_received_ ? 0 : 1` exit status after consuming exactly the
messages up to and including the first `exit` notification. -/
theorem runLoop_no_throw (msgs : List InMsg) (s : LoopFlags)
    (hexit : s.exitRequested = false)
    (hok : ∀ m ∈ msgs, msgThrows m = false) :
    runLoop s msgs =
      (RunResult.exit
        (if s.shutdownReceived || containsShutdown (processedMsgs msgs)
          then 0 else 1),
        (processedMsgs msgs).length) := by
  induction msgs generalizing s with
  | nil => simp [runLoop, processedMsgs, containsShutdown]
  | cons m rest ih =>
    have hm0 : msgThrows m = false := hok m (List.mem_cons_self m rest)
    have hrest : ∀ x ∈ rest, msgThrows x = false := fun x hx =>
      hok x (List.mem_cons_of_mem m hx)
    have hcons : runLoop s (m :: rest) =
        ((runLoop (stepFlags s m) rest).1,
          (runLoop (stepFlags s m) rest).2 + 1) := by
      simp [runLoop, hexit, hm0]
    by_cases hme : isExitNotif m = true
    · obtain ⟨p, rfl⟩ : ∃ p, m = InMsg.notification "exit" p := by
        cases m with
        | emptyMsg => simp [isExitNotif] at hme
        | invalid => simp [isExitNotif] at hme
        | request m2 => simp [isExitNotif] at hme
        | notification m2 p =>
          simp only [isExitNotif, decide_eq_true_eq] at hme
          exact ⟨p, by rw [hme]⟩
      rw [hcons, runLoop_of_exit rest _ (by simp [stepFlags])]
      have hpp : processedMsgs (InMsg.notification "exit" p :: rest) =
          [InMsg.notification "exit" p] := by
        simp [processedMsgs, isExitNotif]
      rw [hpp]
      simp [stepFlags, containsShutdown]
    · have hstep : (stepFlags s m).exitRequested = false := by
        rw [stepFlags_exitRequested s m (by simpa using hme)]
        exact hexit
      rw [hcons, ih _ hstep hrest]
      have hpp : processedMsgs (m :: rest) = m :: processedMsgs rest := by
        simp [processedMsgs, hme]
      rw [hpp]
      by_cases hsd : m = InMsg.request "shutdown"
      · subst hsd
        rw [stepFlags_shutdown_set]
        have h2 : containsShutdown
            (InMsg.request "shutdown" :: processedMsgs rest) = true := by
          simp [containsShutdown]
        rw [h2]
        simp
      · rw [stepFlags_shutdown_keep s m hsd]
        have h2 : containsShutdown (m :: processedMsgs rest) =
            containsShutdown (processedMsgs rest) := by
          simp [containsShutdown, hsd]
        rw [h2]
        simp

/-- Counterexample to C9 as stated: a `textDocument/didOpen` notification
with non-object `params` makes `onDidOpen`'s `params.value(...)` throw
`type_error.306` with no catch on the notification path, so `run()` is
abandoned by an exception — the loop terminates by neither EOF nor an
`exit` notification, and no `0`/`1` exit status is returned even though a
`shutdown` request had been received. -/
theorem serverRun_abort_cex :
    serverRun [InMsg.request "shutdown",
        InMsg.notification "textDocument/didOpen" false] =
      (RunResult.abort, 2) ∧
    containsShutdown (processedMsgs [InMsg.request "shutdown",
        InMsg.notification "textDocument/didOpen" false]) = true ∧
    RunResult.abort ≠ RunResult.exit 0 ∧
    RunResult.abort ≠ RunResult.exit 1 := by
  decide

/-- C9 (amended).  On every stream without a throwing notification (no
`didOpen`/`didChange`/`didClose` whose `params` is not a JSON object),
the main loop terminates at EOF or at the first `exit` notification —
consuming exactly the messages up to and including that point — and
`run()` returns exit status `0` iff a `shutdown` request was received
among them, else `1`; a throwing notification instead propagates its
exception out of `run()` and no exit status is produced. -/
theorem serverRun_no_throw_spec (msgs : List InMsg)
    (hok : ∀ m ∈ msgs, msgThrows m = false) :
    serverRun msgs =
      (RunResult.exit
        (if containsShutdown (processedMsgs msgs) then 0 else 1),
        (processedMsgs msgs).length) := by
  unfold serverRun
  rw [runLoop_no_throw msgs {} rfl hok]
  simp

/-- Witness for C9's amended theorem on a well-formed session. -/
theorem serverRun_no_throw_spec_witness :
    (∀ m ∈ [InMsg.request "initialize",
        InMsg.notification "textDocument/didOpen" true,
        InMsg.request "shutdown", InMsg.notification "exit" true,
        InMsg.request "shutdown"], msgThrows m = false) ∧
    serverRun [InMsg.request "initialize",
        InMsg.notification "textDocument/didOpen" true,
        InMsg.request "shutdown", InMsg.notification "exit" true,
        InMsg.request "shutdown"] =
      (RunResult.exit
        (if containsShutdown (processedMsgs [InMsg.request "initialize",
            InMsg.notification "textDocument/didOpen" true,
            InMsg.request "shutdown", InMsg.notification "exit" true,
            InMsg.request "shutdown"]) then 0 else 1),
        (processedMsgs [InMsg.request "initialize",
          InMsg.notification "textDocument/didOpen" true,
          InMsg.request "shutdown", InMsg.notification "exit" true,
          InMsg.request "shutdown"]).length) :=
  ⟨by decide,
    serverRun_no_throw_spec [InMsg.request "initialize",
      InMsg.notification "textDocument/didOpen" true,
      InMsg.request "shutdown", InMsg.notification "exit" true,
      InMsg.request "shutdown"] (by decide)⟩

/-! C4: which lines the parser skips -/

/-- Counterexample to C4 as stated: the middle field `"0"` is not a
positive integer, yet `std::stoi` parses it without throwing and the
line contributes a match (with `line = 0`). -/
theorem runGrep_zero_line_cex :
    (runGrep ["a.c:0:int foo;".toList] "foo".toList 10).out =
      [⟨"a.c".toList, 0, 4, "int foo;".toList⟩] ∧
    (runGrep ["a.c:0:int foo;".toList] "foo".toList 10).out ≠ [] := by
  decide

/-- C4 (amended).  A line without two colons, or whose middle field makes
`std::stoi` throw (no digits after optional whitespace and sign, or a
value outside `int` range), is silently skipped and contributes no match;
middle fields such as `"0"` or negative numbers parse and are kept. -/
theorem runGrep_skips_unparsable (raw : List Char)
    (lines : List (List Char)) (needle : List Char) (cap : Int)
    (h : parserSkipsLine raw = true) :
    (runGrep (raw :: lines) needle cap).out =
      (runGrep lines needle cap).out := by
  have hp : parseGrepLine raw needle = none := by
    unfold parserSkipsLine at h
    unfold parseGrepLine
    rcases hsp : splitFirstTwoColons (dropTrailingNlCr raw) with _ | ⟨p, mid, rest⟩
    · simp only [hsp]
    · simp only [hsp] at h ⊢
      simp only [Option.isNone_iff_eq_none] at h
      simp [h]
  simp only [runGrep]
  split_ifs with h0
  · rfl
  · simp [runGrepAux, hp]

/-- Witness for C4's amended theorem on a line with no colons. -/
theorem runGrep_skips_unparsable_witness :
    parserSkipsLine "nonsense".toList = true ∧
    (runGrep ["nonsense".toList, "a.c:1:foo".toList] "foo".toList 10).out =
      (runGrep ["a.c:1:foo".toList] "foo".toList 10).out :=
  ⟨by decide,
    runGrep_skips_unparsable "nonsense".toList ["a.c:1:foo".toList]
      "foo".toList 10 (by decide)⟩

/-! C7: URI round trip -/

/-- The unreserved set does not contain `%` (byte 37). -/
theorem unreserved_ne_37 (b : Nat) (hb : isUnreservedByte b = true) :
    b ≠ 37 := by
  simp only [isUnreservedByte, Bool.or_eq_true, Bool.and_eq_true,
    decide_eq_true_eq] at hb
  omega

/-- Decoding steps over a byte other than `%` literally. -/
theorem pctDecode_cons_ne (b : Nat) (t : List Nat) (hb : b ≠ 37) :
    pctDecode (b :: t) = b :: pctDecode t := by
  match t with
  | [] => simp [pctDecode]
  | [x] => simp [pctDecode]
  | x :: y :: r => simp [pctDecode, hb]

set_option maxRecDepth 4000 in
/-- The two uppercase hex digits emitted for a byte below 256 are valid
hex digits and decode back to the byte. -/
theorem hexPair_ok : ∀ b < 256,
    0 ≤ fromHex (hexDigitUpper ((b >>> 4) &&& 15)) ∧
    0 ≤ fromHex (hexDigitUpper (b &&& 15)) ∧
    (((fromHex (hexDigitUpper ((b >>> 4) &&& 15))).toNat <<< 4) |||
      (fromHex (hexDigitUpper (b &&& 15))).toNat) = b := by
  decide

/-- Decoding inverts encoding: `pctDecode` inverts `pctEncode` on byte strings. -/
theorem pctDecode_pctEncode (p : List Nat) (hp : ∀ b ∈ p, b < 256) :
    pctDecode (pctEncode p) = p := by
  induction p with
  | nil => rfl
  | cons b rest ih =>
    have hb : b < 256 := hp b (List.mem_cons_self b rest)
    have hrest : ∀ x ∈ rest, x < 256 := fun x hx =>
      hp x (List.mem_cons_of_mem b hx)
    by_cases hu : isUnreservedByte b = true
    · rw [show pctEncode (b :: rest) = b :: pctEncode rest from by
        simp [pctEncode, hu]]
      rw [pctDecode_cons_ne b _ (unreserved_ne_37 b hu), ih hrest]
    · have henc : pctEncode (b :: rest) =
          37 :: hexDigitUpper ((b >>> 4) &&& 15) ::
            hexDigitUpper (b &&& 15) :: pctEncode rest := by
        simp [pctEncode, hu]
      obtain ⟨h1, h2, h3⟩ := hexPair_ok b hb
      norm_num at h1 h2
      rw [henc]
      simp [pctDecode, h1, h2, h3, ih hrest]

/-- C7.  URI round trip: for every byte string `p` (all byte values
0..255 allowed), `fileUriToPath (pathToFileUri p) = p`. -/
theorem uri_roundtrip (p : List Nat) (hp : ∀ b ∈ p, b < 256) :
    fileUriToPath (pathToFileUri p) = p := by
  unfold fileUriToPath pathToFileUri
  rw [if_pos (List.isPrefixOf_iff_prefix.mpr
    (List.prefix_append fileUriScheme (pctEncode p)))]
  rw [show (7 : Nat) = fileUriScheme.length from rfl,
    List.drop_left fileUriScheme (pctEncode p)]
  exact pctDecode_pctEncode p hp

/-- Witness for C7 on a path with a space, a `%` and a high byte. -/
theorem uri_roundtrip_witness :
    (∀ b ∈ [47, 116, 109, 112, 47, 97, 32, 37, 255, 0], b < 256) ∧
    fileUriToPath (pathToFileUri [47, 116, 109, 112, 47, 97, 32, 37, 255, 0]) =
      [47, 116, 109, 112, 47, 97, 32, 37, 255, 0] :=
  ⟨by decide, uri_roundtrip [47, 116, 109, 112, 47, 97, 32, 37, 255, 0]
    (by decide)⟩

/-! C3: the definition handler's ranking applies the +10 bias -/

/-- Membership through stable insertion. -/
theorem mem_insertRanked (x y : MatchRank) (l : List MatchRank) :
    y ∈ insertRanked x l ↔ y = x ∨ y ∈ l := by
  induction l with
  | nil => simp [insertRanked]
  | cons z zs ih =>
    simp only [insertRanked]
    split_ifs with h
    · rw [List.mem_cons, ih, List.mem_cons]
      tauto
    · rw [List.mem_cons, List.mem_cons]

/-- Membership through the stable sort. -/
theorem mem_stableSortRanked (y : MatchRank) (l : List MatchRank) :
    y ∈ stableSortRanked l ↔ y ∈ l := by
  induction l with
  | nil => simp [stableSortRanked]
  | cons x xs ih =>
    simp only [stableSortRanked, mem_insertRanked, List.mem_cons, ih]

/-- Counterexample to C3 as stated: `onDefinition` passes its own file as
`prefer_abs_path`, so a definition-request match in the requesting
document scores `scoreMatchLine + 10`, not `scoreMatchLine` alone. -/
theorem definitionRank_bias_cex :
    (definitionRank [⟨"/a/b.c".toList, 5, 0, "foo".toList⟩] "foo".toList
        "/a/b.c".toList 1 (fun p => p)).map (fun r => r.score) =
      [scoreMatchLine "foo".toList 0 "foo".toList + 10] ∧
    ¬ (definitionRank [⟨"/a/b.c".toList, 5, 0, "foo".toList⟩] "foo".toList
        "/a/b.c".toList 1 (fun p => p)).map (fun r => r.score) =
      [scoreMatchLine "foo".toList 0 "foo".toList] := by
  decide

/-- C3 (amended).  The definition handler's ranking scores every emitted
match as `scoreMatchLine` plus the same +10 preferred-path bonus hover
and references use: +10 exactly when the requesting document's absolute
path is nonempty and equals the match's absolute path. -/
theorem definitionRank_applies_bias (ms : List GrepMatch) (sym : List Char)
    (currentAbs : List Char) (currentLine1 : Int)
    (makeAbs : List Char → List Char) (r : MatchRank)
    (hr : r ∈ definitionRank ms sym currentAbs currentLine1 makeAbs) :
    r.score = scoreMatchLine r.m.text r.m.column sym +
      (if currentAbs ≠ [] ∧ r.abs_path = currentAbs then 10 else 0) := by
  unfold definitionRank rankAndFilterMatches at hr
  rw [mem_stableSortRanked] at hr
  obtain ⟨m, hm, hval⟩ := List.mem_filterMap.mp hr
  dsimp only at hval
  by_cases hskip : currentAbs ≠ [] ∧ 0 < currentLine1 ∧
      makeAbs m.path = currentAbs ∧ m.line = currentLine1
  · rw [if_pos hskip] at hval
    exact absurd hval (by simp)
  · rw [if_neg hskip] at hval
    have hrv := Option.some.inj hval
    subst hrv
    rfl

/-- Witness for C3's amended theorem at the counterexample input. -/
theorem definitionRank_applies_bias_witness :
    (⟨⟨"/a/b.c".toList, 5, 0, "foo".toList⟩, 35, "/a/b.c".toList⟩ :
        MatchRank) ∈
      definitionRank [⟨"/a/b.c".toList, 5, 0, "foo".toList⟩] "foo".toList
        "/a/b.c".toList 1 (fun p => p) ∧
    (⟨⟨"/a/b.c".toList, 5, 0, "foo".toList⟩, 35, "/a/b.c".toList⟩ :
        MatchRank).score =
      scoreMatchLine
          (⟨⟨"/a/b.c".toList, 5, 0, "foo".toList⟩, 35, "/a/b.c".toList⟩ :
            MatchRank).m.text
          (⟨⟨"/a/b.c".toList, 5, 0, "foo".toList⟩, 35, "/a/b.c".toList⟩ :
            MatchRank).m.column "foo".toList +
        (if "/a/b.c".toList ≠ [] ∧
            (⟨⟨"/a/b.c".toList, 5, 0, "foo".toList⟩, 35, "/a/b.c".toList⟩ :
              MatchRank).abs_path = "/a/b.c".toList then 10 else 0) :=
  ⟨by decide,
    definitionRank_applies_bias [⟨"/a/b.c".toList, 5, 0, "foo".toList⟩]
      "foo".toList "/a/b.c".toList 1 (fun p => p)
      ⟨⟨"/a/b.c".toList, 5, 0, "foo".toList⟩, 35, "/a/b.c".toList⟩
      (by decide)⟩

/-! C8: the `#define` bonus -/

/-- Counterexample to C8 as stated: `macroNameStartIfDefine` accepts any
`isspace` byte before the macro name, but the +25 boundary bonus only
accepts a space or tab, so `"#define\x0bFOO"` (vertical tab) scores
exactly 100. -/
theorem scoreMatchLine_define_cex :
    nameStartIfDefine ['#', 'd', 'e', 'f', 'i', 'n', 'e', '\x0b', 'F', 'O', 'O'] =
      some 8 ∧
    scoreMatchLine ['#', 'd', 'e', 'f', 'i', 'n', 'e', '\x0b', 'F', 'O', 'O']
        8 "FOO".toList = 100 ∧
    ¬ 125 ≤
      scoreMatchLine ['#', 'd', 'e', 'f', 'i', 'n', 'e', '\x0b', 'F', 'O', 'O']
        8 "FOO".toList := by
  decide

/-- C8 (amended).  When `macroNameStartIfDefine` succeeds and the needle
sits at the macro-name column, the scorer awards the +100 bonus, so the
score is at least 100; when the whitespace byte immediately before the
macro name is a space or tab, the +25 boundary bonus also fires and the
score is at least 125 (in particular `"#define FOO 1"` scores ≥ 125). -/
theorem scoreMatchLine_define (line needle : List Char) (ms : Nat)
    (hms : nameStartIfDefine line = some ms) :
    100 ≤ scoreMatchLine line (ms : Int) needle ∧
    ((line.getD (ms - 1) '\x00' = ' ' ∨ line.getD (ms - 1) '\x00' = '\t') →
      125 ≤ scoreMatchLine line (ms : Int) needle) := by
  have hnn : ¬ ((ms : Int) < 0) := by omega
  have hws : (line.getD (ms - 1) '\x00' = ' ' ∨
      line.getD (ms - 1) '\x00' = '\t') →
      isWsOrBolBefore line (ms : Int) = true := by
    intro h
    unfold isWsOrBolBefore
    split_ifs with h0
    · rfl
    · simp only [Int.toNat_natCast, Bool.or_eq_true, decide_eq_true_eq]
      exact h
  dsimp only [scoreMatchLine]
  rw [if_neg hnn]
  simp only [hms]
  constructor
  · split_ifs <;> omega
  · intro h
    simp only [hws h, eq_self_iff_true, if_true]
    split_ifs <;> omega

/-- Witness for C8's amended theorem on `"#define FOO 1"`. -/
theorem scoreMatchLine_define_witness :
    nameStartIfDefine "#define FOO 1".toList = some 8 ∧
    ("#define FOO 1".toList.getD 7 '\x00' = ' ' ∨
      "#define FOO 1".toList.getD 7 '\x00' = '\t') ∧
    125 ≤ scoreMatchLine "#define FOO 1".toList ((8 : Nat) : Int)
      "FOO".toList :=
  ⟨by decide, Or.inl (by decide),
    (scoreMatchLine_define "#define FOO 1".toList "FOO".toList 8
        (by decide)).2 (Or.inl (by decide))⟩

/-! C2: the child's pid is visible while the pipe is being read -/

/-- The pid slot is unchanged by events other than `publishPid`. -/
theorem slotFold_no_publish (evs : List ExecEvent) (s : Int)
    (h : ∀ q : Int, ExecEvent.publishPid q ∉ evs) :
    evs.foldl
      (fun s e =>
        match e with
        | ExecEvent.publishPid p => p
        | _ => s) s = s := by
  induction evs generalizing s with
  | nil => rfl
  | cons e rest ih =>
    have he : ∀ q : Int, ExecEvent.publishPid q ∉ rest := fun q hq =>
      h q (List.mem_cons_of_mem e hq)
    cases e with
    | publishPid p => exact absurd (List.mem_cons_self _ _) (h p)
    | closeWriteEnd => exact ih s he
    | readLine l => exact ih s he
    | sigterm p => exact ih s he
    | reap p => exact ih s he

/-- No event after the pid publication republishes the slot. -/
theorem runGrepEvents_tail_no_publish (pid : Int)
    (lines : List (List Char)) (needle : List Char) (cap : Int)
    (q : Int) :
    ExecEvent.publishPid q ∉
      ((lines.take (runGrepAux needle lines cap).consumed).map
          ExecEvent.readLine ++
        (if (runGrepAux needle lines cap).sigtermSent then
          [ExecEvent.sigterm pid] else []) ++
        [ExecEvent.reap pid]) := by
  intro hq
  rcases List.mem_append.mp hq with hq | hq
  · rcases List.mem_append.mp hq with hq | hq
    · obtain ⟨l, _, habs⟩ := List.mem_map.mp hq
      exact ExecEvent.noConfusion habs
    · split at hq
      · rcases List.mem_singleton.mp hq with h
        exact ExecEvent.noConfusion h
      · exact absurd hq (List.not_mem_nil _)
  · rcases List.mem_singleton.mp hq with h
    exact ExecEvent.noConfusion h

/-- C2.  Modelled from the spec: after a successful fork the executor
publishes the child's pid into the `child_pid` slot before any pipe read,
so at the moment of every `readLine` event the slot already holds the
child's pid and the `$/cancelRequest` path would deliver `SIGTERM` to
exactly that pid. -/
theorem runGrepEvents_pid_readable (pid : Int) (lines : List (List Char))
    (needle : List Char) (cap : Int) (hpid : 0 < pid) (hn : needle ≠ [])
    (hcap : 0 < cap) (k : Nat) (l : List Char)
    (hk : (runGrepEvents pid lines needle cap).get? k =
      some (ExecEvent.readLine l)) :
    killTargetOfSlot
      (slotAfter ((runGrepEvents pid lines needle cap).take k)) =
      some pid := by
  have hcond : ¬ (needle = [] ∨ cap ≤ 0) := by
    push_neg
    exact ⟨hn, by omega⟩
  unfold runGrepEvents at hk ⊢
  rw [if_neg hcond] at hk ⊢
  match k with
  | 0 => exact absurd (Option.some.inj hk) (by simp)
  | 1 => exact absurd (Option.some.inj hk) (by simp)
  | (k' + 1) + 1 =>
    rw [List.take_succ_cons, List.take_succ_cons]
    unfold slotAfter
    rw [List.foldl_cons, List.foldl_cons]
    have hrest : ∀ q : Int, ExecEvent.publishPid q ∉
        (((lines.take (runGrepAux needle lines cap).consumed).map
            ExecEvent.readLine ++
          (if (runGrepAux needle lines cap).sigtermSent then
            [ExecEvent.sigterm pid] else []) ++
          [ExecEvent.reap pid]).take k') := fun q hq =>
      runGrepEvents_tail_no_publish pid lines needle cap q
        (List.take_subset k' _ hq)
    rw [slotFold_no_publish _ pid hrest]
    unfold killTargetOfSlot
    rw [if_pos hpid]

/-- Witness for C2 at a one-line search with pid 42. -/
theorem runGrepEvents_pid_readable_witness :
    ((0 : Int) < 42 ∧ "x".toList ≠ ([] : List Char) ∧ (0 : Int) < 1 ∧
      (runGrepEvents 42 ["a.c:1:x".toList] "x".toList 1).get? 2 =
        some (ExecEvent.readLine "a.c:1:x".toList)) ∧
    killTargetOfSlot
      (slotAfter ((runGrepEvents 42 ["a.c:1:x".toList] "x".toList 1).take 2)) =
      some 42 :=
  ⟨⟨by decide, by decide, by decide, by decide⟩,
    runGrepEvents_pid_readable 42 ["a.c:1:x".toList] "x".toList 1
      (by decide) (by decide) (by decide) 2 "a.c:1:x".toList (by decide)⟩

/-! C5: cap enforcement -/

/-- Main induction for cap enforcement: with `remaining ≥ 1` budget left,
the read loop collects at most `remaining` matches, and when the
remaining stream holds at least `remaining` admissible records it
collects exactly `remaining`, sends `SIGTERM`, and stops reading at the
`remaining`-th admissible line. -/
theorem runGrepAux_cap (needle : List Char) (lines : List (List Char))
    (remaining : Int) (h1 : 1 ≤ remaining) :
    ((runGrepAux needle lines remaining).out.length : Int) ≤ remaining ∧
    (remaining ≤ (countAdmissible needle lines : Int) →
      ((runGrepAux needle lines remaining).out.length : Int) = remaining ∧
      (runGrepAux needle lines remaining).sigtermSent = true ∧
      (countAdmissible needle
        (lines.take (runGrepAux needle lines remaining).consumed) : Int) =
        remaining ∧
      0 < (runGrepAux needle lines remaining).consumed ∧
      (parseGrepLine
        (lines.getD ((runGrepAux needle lines remaining).consumed - 1) [])
        needle).isSome = true) := by
  induction lines generalizing remaining with
  | nil =>
    refine ⟨by simp [runGrepAux]; omega, fun hc => absurd hc ?_⟩
    simp [countAdmissible]
    omega
  | cons l ls ih =>
    rcases hl : parseGrepLine l needle with _ | m
    · have hca : countAdmissible needle (l :: ls) =
          countAdmissible needle ls := by
        simp [countAdmissible, List.filter_cons, hl]
      have haux : runGrepAux needle (l :: ls) remaining =
          ⟨(runGrepAux needle ls remaining).out,
            (runGrepAux needle ls remaining).sigtermSent, false,
            (runGrepAux needle ls remaining).consumed + 1⟩ := by
        simp [runGrepAux, hl]
      obtain ⟨iha, ihb⟩ := ih remaining h1
      rw [haux, hca]
      dsimp only
      refine ⟨iha, fun hc => ?_⟩
      obtain ⟨e1, e2, e3, e4, e5⟩ := ihb hc
      obtain ⟨c', hc'⟩ : ∃ c',
          (runGrepAux needle ls remaining).consumed = c' + 1 :=
        ⟨(runGrepAux needle ls remaining).consumed - 1,
          (Nat.succ_pred_eq_of_pos e4).symm⟩
      refine ⟨e1, e2, ?_, by omega, ?_⟩
      · rw [List.take_succ_cons]
        rw [show (countAdmissible needle
            (l :: ls.take (runGrepAux needle ls remaining).consumed)) =
          countAdmissible needle
            (ls.take (runGrepAux needle ls remaining).consumed) from by
          simp [countAdmissible, List.filter_cons, hl]]
        exact e3
      · rw [hc'] at e5 ⊢
        simpa [List.getD_cons_succ] using e5
    · by_cases hrem : remaining ≤ 1
      · have hrem1 : remaining = 1 := le_antisymm hrem h1
        subst hrem1
        have haux : runGrepAux needle (l :: ls) 1 = ⟨[m], true, false, 1⟩ := by
          simp [runGrepAux, hl]
        rw [haux]
        dsimp only
        refine ⟨by simp, fun _ => ⟨by simp, rfl, ?_, by omega, by simp [hl]⟩⟩
        simp [countAdmissible, List.filter_cons, hl]
      · have h1' : 1 ≤ remaining - 1 := by omega
        obtain ⟨iha, ihb⟩ := ih (remaining - 1) h1'
        have haux : runGrepAux needle (l :: ls) remaining =
            ⟨m :: (runGrepAux needle ls (remaining - 1)).out,
              (runGrepAux needle ls (remaining - 1)).sigtermSent, false,
              (runGrepAux needle ls (remaining - 1)).consumed + 1⟩ := by
          simp [runGrepAux, hl, hrem]
        have hca : (countAdmissible needle (l :: ls) : Int) =
            (countAdmissible needle ls : Int) + 1 := by
          simp [countAdmissible, List.filter_cons, hl]
        rw [haux]
        dsimp only
        constructor
        · simp only [List.length_cons]
          push_cast
          omega
        · intro hc
          have hc' : remaining - 1 ≤ (countAdmissible needle ls : Int) := by
            omega
          obtain ⟨e1, e2, e3, e4, e5⟩ := ihb hc'
          obtain ⟨c', hcons⟩ : ∃ c',
              (runGrepAux needle ls (remaining - 1)).consumed = c' + 1 :=
            ⟨(runGrepAux needle ls (remaining - 1)).consumed - 1,
              (Nat.succ_pred_eq_of_pos e4).symm⟩
          refine ⟨?_, e2, ?_, by omega, ?_⟩
          · simp only [List.length_cons]
            push_cast
            omega
          · rw [List.take_succ_cons]
            rw [show (countAdmissible needle
                (l :: ls.take (runGrepAux needle ls (remaining - 1)).consumed)) =
              countAdmissible needle
                (ls.take (runGrepAux needle ls (remaining - 1)).consumed) + 1 from by
              simp [countAdmissible, List.filter_cons, hl]]
            push_cast
            omega
          · rw [hcons] at e5 ⊢
            simpa [List.getD_cons_succ] using e5

/-- C5.  The executor never returns more matches than `max_results`, and
when the child's output holds at least `max_results` admissible records
it returns exactly `max_results` matches, sends `SIGTERM`, stops reading
right after the `max_results`-th admissible line (the consumed prefix
holds exactly `max_results` admissible records and ends on an admissible
line), and still reaps the child with the blocking wait. -/
theorem runGrep_cap_spec (lines : List (List Char)) (needle : List Char)
    (cap : Int) :
    ((runGrep lines needle cap).out = [] ∨
      ((runGrep lines needle cap).out.length : Int) ≤ cap) ∧
    (needle ≠ [] → 1 ≤ cap → cap ≤ (countAdmissible needle lines : Int) →
      ((runGrep lines needle cap).out.length : Int) = cap ∧
      (runGrep lines needle cap).sigtermSent = true ∧
      (runGrep lines needle cap).reaped = true ∧
      (countAdmissible needle
        (lines.take (runGrep lines needle cap).consumed) : Int) = cap ∧
      0 < (runGrep lines needle cap).consumed ∧
      (parseGrepLine
        (lines.getD ((runGrep lines needle cap).consumed - 1) [])
        needle).isSome = true) := by
  by_cases h0 : needle = [] ∨ cap ≤ 0
  · have hr : runGrep lines needle cap = ⟨[], false, false, 0⟩ := by
      simp [runGrep, h0]
    rw [hr]
    refine ⟨Or.inl rfl, fun hn h1 _ => ?_⟩
    rcases h0 with h | h
    · exact absurd h hn
    · omega
  · have h1 : 1 ≤ cap := by
      push_neg at h0
      omega
    have hr : runGrep lines needle cap =
        ⟨(runGrepAux needle lines cap).out,
          (runGrepAux needle lines cap).sigtermSent, true,
          (runGrepAux needle lines cap).consumed⟩ := by
      simp [runGrep, h0]
    obtain ⟨ha, hb⟩ := runGrepAux_cap needle lines cap h1
    rw [hr]
    refine ⟨Or.inr ha, fun _ _ hc => ?_⟩
    obtain ⟨e1, e2, e3, e4, e5⟩ := hb hc
    exact ⟨e1, e2, rfl, e3, e4, e5⟩

/-- Witness for C5 on a stream with two admissible records before an
inadmissible trailer, cap 2. -/
theorem runGrep_cap_spec_witness :
    ("foo".toList ≠ ([] : List Char) ∧ (1 : Int) ≤ 2 ∧
      (2 : Int) ≤ (countAdmissible "foo".toList
        ["a.c:1:foo".toList, "b.c:2:foo bar".toList, "zzz".toList] : Int)) ∧
    ((runGrep ["a.c:1:foo".toList, "b.c:2:foo bar".toList, "zzz".toList]
        "foo".toList 2).out.length : Int) = 2 ∧
    (runGrep ["a.c:1:foo".toList, "b.c:2:foo bar".toList, "zzz".toList]
      "foo".toList 2).sigtermSent = true ∧
    (runGrep ["a.c:1:foo".toList, "b.c:2:foo bar".toList, "zzz".toList]
      "foo".toList 2).reaped = true ∧
    (countAdmissible "foo".toList
      (["a.c:1:foo".toList, "b.c:2:foo bar".toList, "zzz".toList].take
        (runGrep ["a.c:1:foo".toList, "b.c:2:foo bar".toList, "zzz".toList]
          "foo".toList 2).consumed) : Int) = 2 ∧
    0 < (runGrep ["a.c:1:foo".toList, "b.c:2:foo bar".toList, "zzz".toList]
      "foo".toList 2).consumed ∧
    (parseGrepLine
      (["a.c:1:foo".toList, "b.c:2:foo bar".toList, "zzz".toList].getD
        ((runGrep ["a.c:1:foo".toList, "b.c:2:foo bar".toList,
          "zzz".toList] "foo".toList 2).consumed - 1) [])
      "foo".toList).isSome = true :=
  ⟨⟨by decide, by decide, by decide⟩,
    (runGrep_cap_spec
        ["a.c:1:foo".toList, "b.c:2:foo bar".toList, "zzz".toList]
        "foo".toList 2).2 (by decide) (by decide) (by decide)⟩

/-! C6: `findColumn0` returns the first occurrence outside strings -/

/-- Dropping one more element after a known cons-shaped drop. -/
theorem drop_tail (h : List Char) (pos : Nat) (c : Char) (t : List Char)
    (e : h.drop pos = c :: t) : h.drop (pos + 1) = t := by
  have h2 : (h.drop pos).drop 1 = h.drop (pos + 1) := by
    rw [List.drop_drop]
  rw [← h2, e]
  rfl

/-- A nonempty needle matches nowhere in the empty suffix. -/
theorem isPrefixOf_nil_eq_false (n : List Char) (hn : n ≠ []) :
    n.isPrefixOf ([] : List Char) = false := by
  cases n with
  | nil => exact absurd rfl hn
  | cons a t => rfl

/-- The scan loop of `findColumn0` computes the first needle occurrence
that is not inside a double-quoted string: invariant-carrying
characterization over the remaining suffix. -/
theorem findCol0Scan_spec (h n : List Char) (hn : n ≠ []) :
    ∀ (s : List Char) (pos : Nat), s = h.drop pos →
      (∀ q, q < pos → n.isPrefixOf (h.drop q) = true →
        inStringAt h q = true) →
      (findCol0Scan h n s pos = -1 ∧
        ∀ p, n.isPrefixOf (h.drop p) = true → inStringAt h p = true) ∨
      (∃ p : Nat, findCol0Scan h n s pos = (p : Int) ∧
        n.isPrefixOf (h.drop p) = true ∧ inStringAt h p = false ∧
        ∀ q, q < p → n.isPrefixOf (h.drop q) = true →
          inStringAt h q = true) := by
  intro s
  induction s with
  | nil =>
    intro pos hs inv
    left
    refine ⟨rfl, fun p hp => ?_⟩
    by_cases hq : p < pos
    · exact inv p hq hp
    · exfalso
      have hlen : h.length ≤ pos := List.drop_eq_nil_iff.mp hs.symm
      have hdp : h.drop p = [] := List.drop_eq_nil_of_le (by omega)
      rw [hdp, isPrefixOf_nil_eq_false n hn] at hp
      exact Bool.noConfusion hp
  | cons c t ih =>
    intro pos hs inv
    have ht : t = h.drop (pos + 1) := (drop_tail h pos c t hs.symm).symm
    by_cases hpre : n.isPrefixOf (c :: t) = true
    · by_cases hins : inStringAt h pos = true
      · have hscan : findCol0Scan h n (c :: t) pos =
            findCol0Scan h n t (pos + 1) := by
          simp [findCol0Scan, hpre, hins]
        rw [hscan]
        apply ih (pos + 1) ht
        intro q hq hpq
        rcases Nat.lt_succ_iff_lt_or_eq.mp hq with hq' | hq'
        · exact inv q hq' hpq
        · subst hq'
          exact hins
      · right
        refine ⟨pos, ?_, ?_, ?_, fun q hq hpq => inv q hq hpq⟩
        · simp [findCol0Scan, hpre, hins]
        · rw [← hs]
          exact hpre
        · simpa using hins
    · have hscan : findCol0Scan h n (c :: t) pos =
          findCol0Scan h n t (pos + 1) := by
        simp [findCol0Scan, hpre]
      rw [hscan]
      apply ih (pos + 1) ht
      intro q hq hpq
      rcases Nat.lt_succ_iff_lt_or_eq.mp hq with hq' | hq'
      · exact inv q hq' hpq
      · subst hq'
        rw [← hs] at hpq
        exact absurd hpq hpre

/-- C6.  For a non-empty needle, `findColumn0` returns `-1` on
comment-only lines; otherwise it returns the 0-based offset of the first
needle occurrence not inside a double-quoted string — the in-string state
being toggled by each `"` preceded by an even number of consecutive
backslashes — and `-1` when every occurrence is inside a string. -/
theorem findColumn0_spec (h n : List Char) (hn : n ≠ []) :
    (commentLead h = true → findColumn0 h n = -1) ∧
    (commentLead h = false →
      (findColumn0 h n = -1 ∧
        ∀ p, n.isPrefixOf (h.drop p) = true → inStringAt h p = true) ∨
      (∃ p : Nat, findColumn0 h n = (p : Int) ∧
        n.isPrefixOf (h.drop p) = true ∧ inStringAt h p = false ∧
        ∀ q, q < p → n.isPrefixOf (h.drop q) = true →
          inStringAt h q = true)) := by
  constructor
  · intro hc
    unfold findColumn0
    rw [if_neg hn, if_pos hc]
  · intro hc
    unfold findColumn0
    rw [if_neg hn, if_neg (by simp [hc])]
    exact findCol0Scan_spec h n hn h 0 (List.drop_zero h).symm
      (fun q hq _ => absurd hq (Nat.not_lt_zero q))

/-- Witness for C6 on a line whose first `foo` is inside a string and
whose second is code. -/
theorem findColumn0_spec_witness :
    ("foo".toList ≠ ([] : List Char)) ∧
    ((commentLead "x \"foo\" foo".toList = true →
      findColumn0 "x \"foo\" foo".toList "foo".toList = -1) ∧
    (commentLead "x \"foo\" foo".toList = false →
      (findColumn0 "x \"foo\" foo".toList "foo".toList = -1 ∧
        ∀ p, "foo".toList.isPrefixOf ("x \"foo\" foo".toList.drop p) = true →
          inStringAt "x \"foo\" foo".toList p = true) ∨
      (∃ p : Nat,
        findColumn0 "x \"foo\" foo".toList "foo".toList = (p : Int) ∧
        "foo".toList.isPrefixOf ("x \"foo\" foo".toList.drop p) = true ∧
        inStringAt "x \"foo\" foo".toList p = false ∧
        ∀ q, q < p →
          "foo".toList.isPrefixOf ("x \"foo\" foo".toList.drop q) = true →
          inStringAt "x \"foo\" foo".toList q = true))) :=
  ⟨by decide, findColumn0_spec "x \"foo\" foo".toList "foo".toList (by decide)⟩

/-! C10: `wordAt` backs up over one non-word byte mid-line -/

/-- Relating `getD` to a cons-shaped `drop` for an in-range index. -/
theorem drop_eq_getD_cons (l : List Char) (i : Nat) (hi : i < l.length) :
    l.drop i = l.getD i '\x00' :: l.drop (i + 1) := by
  rw [List.getD_eq_getElem l '\x00' hi]
  exact List.drop_eq_getElem_cons hi

/-- The back-up loop halts immediately on a word character. -/
theorem backUp_stop (line : List Char) (k : Nat)
    (hk : isWordChar (line.getD k '\x00') = true) : backUp line k = k := by
  cases k with
  | zero => rfl
  | succ j =>
    unfold backUp
    rw [if_neg]
    intro hcond
    exact hcond.1 hk

/-- On a non-word byte whose left neighbour is a word byte, the back-up
loop moves exactly one position left. -/
theorem backUp_step (line : List Char) (c : Nat) (hc0 : 0 < c)
    (hnw : isWordChar (line.getD c '\x00') = false)
    (hw : isWordChar (line.getD (c - 1) '\x00') = true) :
    backUp line c = c - 1 := by
  obtain ⟨k, rfl⟩ : ∃ k, c = k + 1 :=
    ⟨c - 1, (Nat.succ_pred_eq_of_pos hc0).symm⟩
  have hw' : isWordChar (line.getD k '\x00') = true := by
    simpa using hw
  unfold backUp
  rw [if_pos ⟨by rw [hnw]; simp, hw'⟩]
  simpa using backUp_stop line k hw'

/-- The left-extension loop lands at the start of the maximal word-byte
run ending just left of `s`. -/
theorem wordStart_eq (line : List Char) :
    ∀ s : Nat, s ≤ line.length →
      wordStart line s =
        s - ((line.take s).reverse.takeWhile isWordChar).length := by
  intro s
  induction s with
  | zero => intro _; rfl
  | succ j ih =>
    intro hs
    have hj : j < line.length := by omega
    have htake : line.take (j + 1) = line.take j ++ [line.get ⟨j, hj⟩] :=
      (List.take_concat_get' line j hj).symm
    have hget : line.getD j '\x00' = line.get ⟨j, hj⟩ :=
      List.getD_eq_getElem line '\x00' hj
    have hle : ((line.take j).reverse.takeWhile isWordChar).length ≤ j := by
      refine le_trans (List.takeWhile_prefix _).length_le ?_
      simp only [List.length_reverse, List.length_take]
      omega
    unfold wordStart
    by_cases hw : isWordChar (line.getD j '\x00') = true
    · rw [if_pos hw, ih (by omega), htake, List.reverse_append]
      simp only [List.reverse_singleton, List.singleton_append]
      rw [List.takeWhile_cons_of_pos (by rw [← hget]; exact hw)]
      simp only [List.length_cons]
      omega
    · rw [if_neg hw, htake, List.reverse_append]
      simp only [List.reverse_singleton, List.singleton_append]
      rw [List.takeWhile_cons_of_neg (by rw [← hget]; simpa using hw)]
      simp

/-- The reversed word-run taken from the reversed list is the
corresponding suffix of the list itself. -/
theorem reverse_takeWhile_eq_drop (l : List Char) :
    (l.reverse.takeWhile isWordChar).reverse =
      l.drop (l.length - (l.reverse.takeWhile isWordChar).length) := by
  have hsplit : l.reverse.takeWhile isWordChar ++
      l.reverse.dropWhile isWordChar = l.reverse :=
    List.takeWhile_append_dropWhile _ _
  have hl : l = (l.reverse.dropWhile isWordChar).reverse ++
      (l.reverse.takeWhile isWordChar).reverse := by
    calc l = l.reverse.reverse := (List.reverse_reverse l).symm
      _ = (l.reverse.takeWhile isWordChar ++
            l.reverse.dropWhile isWordChar).reverse := by rw [hsplit]
      _ = (l.reverse.dropWhile isWordChar).reverse ++
            (l.reverse.takeWhile isWordChar).reverse := by
          rw [List.reverse_append]
  have hlen : ((l.reverse.dropWhile isWordChar).reverse).length =
      l.length - (l.reverse.takeWhile isWordChar).length := by
    have hs := congrArg List.length hsplit
    simp only [List.length_append, List.length_reverse] at hs ⊢
    omega
  calc (l.reverse.takeWhile isWordChar).reverse
      = ((l.reverse.dropWhile isWordChar).reverse ++
          (l.reverse.takeWhile isWordChar).reverse).drop
            ((l.reverse.dropWhile isWordChar).reverse).length :=
        (List.drop_left _ _).symm
    _ = l.drop ((l.reverse.dropWhile isWordChar).reverse).length := by
        rw [← hl]
    _ = l.drop (l.length - (l.reverse.takeWhile isWordChar).length) := by
        rw [hlen]

/-- C10.  The back-up-by-one step of `wordAt` is not limited to
end-of-line: at any cursor strictly inside the line sitting on a
non-word byte whose left neighbour is a word byte, `wordAt` returns the
maximal word ending at that neighbour (never the empty string). -/
theorem wordAt_mid_backup (text line : List Char) (l c : Nat)
    (hline : (splitLines text).get? l = some line)
    (hc0 : 0 < c) (hclen : c < line.length)
    (hnw : isWordChar (line.getD c '\x00') = false)
    (hw : isWordChar (line.getD (c - 1) '\x00') = true) :
    wordAt text (l : Int) (c : Int) =
      ((line.take c).reverse.takeWhile isWordChar).reverse ∧
    wordAt text (l : Int) (c : Int) ≠ [] := by
  have hc' : c - 1 + 1 = c := Nat.succ_pred_eq_of_pos hc0
  have hwa : wordAt text (l : Int) (c : Int) = wordAtLine line c := by
    unfold wordAt
    rw [if_neg (by omega)]
    simp only [Int.toNat_natCast, hline]
  have hcm : c - 1 < line.length := by omega
  have hget1 : line.getD (c - 1) '\x00' = line.get ⟨c - 1, hcm⟩ :=
    List.getD_eq_getElem line '\x00' hcm
  have htakec : line.take c = line.take (c - 1) ++ [line.get ⟨c - 1, hcm⟩] := by
    conv_lhs => rw [← hc']
    exact (List.take_concat_get' line (c - 1) hcm).symm
  have htle : ((line.take (c - 1)).reverse.takeWhile isWordChar).length ≤
      c - 1 := by
    refine le_trans (List.takeWhile_prefix _).length_le ?_
    simp only [List.length_reverse, List.length_take]
    omega
  have htc : ((line.take c).reverse.takeWhile isWordChar).length =
      ((line.take (c - 1)).reverse.takeWhile isWordChar).length + 1 := by
    rw [htakec, List.reverse_append]
    simp only [List.reverse_singleton, List.singleton_append]
    rw [List.takeWhile_cons_of_pos (by rw [← hget1]; exact hw)]
    simp
  have he : (c - 1) + ((line.drop (c - 1)).takeWhile isWordChar).length =
      c := by
    rw [show line.drop (c - 1) = line.getD (c - 1) '\x00' :: line.drop c from by
      rw [← hc']
      exact drop_eq_getD_cons line (c - 1) (by omega)]
    rw [List.takeWhile_cons_of_pos hw]
    rw [drop_eq_getD_cons line c hclen,
      List.takeWhile_cons_of_neg (by rw [hnw]; simp)]
    simp [hc']
  have hback : backUp line c = c - 1 := backUp_step line c hc0 hnw hw
  have hstart : wordStart line (c - 1) =
      (c - 1) - ((line.take (c - 1)).reverse.takeWhile isWordChar).length :=
    wordStart_eq line (c - 1) (by omega)
  have hwl : wordAtLine line c =
      (line.take c).drop
        ((c - 1) -
          ((line.take (c - 1)).reverse.takeWhile isWordChar).length) := by
    dsimp only [wordAtLine]
    rw [Nat.min_eq_left (le_of_lt hclen)]
    rw [if_neg (show ¬ (0 < c ∧ c = line.length) by omega)]
    rw [hback, he, hstart]
    rw [if_neg (by omega)]
  rw [hwa, hwl]
  constructor
  · rw [reverse_takeWhile_eq_drop (line.take c)]
    rw [List.length_take, Nat.min_eq_left (le_of_lt hclen)]
    congr 1
    omega
  · intro habs
    have hlen := congrArg List.length habs
    simp only [List.length_drop, List.length_take, List.length_nil] at hlen
    rw [Nat.min_eq_left (le_of_lt hclen)] at hlen
    omega

/-- Witness for C10: cursor on the `.` of `foo.bar` yields `foo`. -/
theorem wordAt_mid_backup_witness :
    ((splitLines "foo.bar".toList).get? 0 = some "foo.bar".toList ∧
      0 < 3 ∧ 3 < "foo.bar".toList.length ∧
      isWordChar ("foo.bar".toList.getD 3 '\x00') = false ∧
      isWordChar ("foo.bar".toList.getD 2 '\x00') = true) ∧
    wordAt "foo.bar".toList ((0 : Nat) : Int) ((3 : Nat) : Int) =
      (("foo.bar".toList.take 3).reverse.takeWhile isWordChar).reverse ∧
    wordAt "foo.bar".toList ((0 : Nat) : Int) ((3 : Nat) : Int) ≠ [] :=
  ⟨⟨by decide, by decide, by decide, by decide, by decide⟩,
    wordAt_mid_backup "foo.bar".toList "foo.bar".toList 0 3 (by decide)
      (by decide) (by decide) (by decide) (by decide)⟩

end Slclangd
